import Mathlib

set_option maxHeartbeats 1000000

namespace ConcordModel

/-- Peer descriptor, from `Server` in api.go: a name, the 64-bit ring id
    (modelled as `Nat`; only comparisons are performed on it), and the
    transport address. -/
structure Server where
  Name : String
  Id : Nat
  Address : String
deriving DecidableEq, Repr

/-- Key range `(Start, End]` on the ring, from `Range` in api.go. -/
structure Range where
  Start : Nat
  End : Nat
deriving DecidableEq, Repr

/-- Ring snapshot reply, from `ring` in api.go: a successor list and an
    optional predecessor. -/
structure ring where
  Successors : List Server
  Predecessor : Option Server
deriving DecidableEq, Repr

/-- One finger-table slot, from `fingerEntry` in api.go. -/
structure FingerEntry where
  Start : Nat
  Node : Option Server
deriving DecidableEq, Repr

/-- The per-node ring view: the fields of the `Concord` struct (api.go) that
    the membership logic reads and writes. Network handles, the gRPC server,
    locks and loggers are external resources and are not part of the state. -/
structure Concord where
  self : Server
  interval : Range
  successors : List Server
  predecessor : Option Server
  finger : List FingerEntry
  successorCount : Nat
  hashBits : Nat
  started : Bool
  setup : Bool
deriving DecidableEq, Repr

/-- logic.go `between`: true when `b` lies strictly on the clockwise arc from
    `a` to `c`, wrapping around the ring. Direct transcription of the two
    branches of the Go function. -/
def between (a b c : Nat) : Bool :=
  if a < c then decide (a < b) && decide (b < c)
  else decide (a < b) || decide (b < c)

/-- logic.go `allButLast`: the slice without its final element. -/
def allButLast {α : Type} (slice : List α) : List α :=
  if slice.length = 0 then [] else slice.dropLast

/-- logic.go `truncate`: the slice cut to at most `ln` elements. -/
def truncate {α : Type} (slice : List α) (ln : Nat) : List α :=
  if ln = 0 then [] else if slice.length < ln then slice else slice.take ln

/-- logic.go `tail`: the slice without its first element. -/
def tail {α : Type} (slice : List α) : List α :=
  if slice.length = 0 then [] else slice.drop 1

/-- logic.go `head`: the slice cut to its first element. -/
def head {α : Type} (slice : List α) : List α :=
  if slice.length = 0 then [] else slice.take 1

/-- logic.go `updateRange`: store the new interval. The host callback that the
    Go code invokes afterwards is an external effect outside the state model. -/
def updateRange (c : Concord) (r : Range) : Concord :=
  { c with interval := r }

/-- Loop body of logic.go `fillFingerTable`: set `finger[i].Node = n` for the
    first `m` indices (the Go loop runs `i` over `[0, m)`; the table always has
    exactly `m = hashBits` entries by construction in `initFingerTable`). -/
def fillFingersAux (m : Nat) (n : Server) : List FingerEntry → List FingerEntry
  | [] => []
  | f :: rest =>
    match m with
    | 0 => f :: rest
    | k + 1 => { f with Node := some n } :: fillFingersAux k n rest

/-- logic.go `fillFingerTable`: point every finger at node `n`. -/
def fillFingerTable (c : Concord) (n : Server) : Concord :=
  { c with finger := fillFingersAux c.hashBits n c.finger }

/-- logic.go `create`: initialize a singleton ring. The successor list gets
    `successorCount` copies of self, the predecessor becomes self, the range
    becomes `(self.Id, self.Id]`, and all fingers point at self. The spawned
    stabilize task is an external effect. Returns the (always nil) error
    together with the new state. -/
def create (c : Concord) : Option String × Concord :=
  let c1 := { c with
    successors := List.replicate c.successorCount c.self,
    predecessor := some c.self }
  let c2 := updateRange c1 (Range.mk c.self.Id c.self.Id)
  let c3 := fillFingerTable c2 c.self
  (none, c3)

/-- api.go `Create`: delegates directly to `create`. -/
def Create (c : Concord) : Option String × Concord :=
  create c

/-- The state installation performed by logic.go `join` once the successor's
    ring snapshot has been fetched (the retry loop and the RPCs themselves are
    external): if the reply has no predecessor the attempt is rejected
    (`none`, the Go code retries); otherwise install successors, predecessor,
    range and fingers exactly as the Go code does. -/
def joinInstall (c : Concord) (successor : Server) (r : ring) : Option Concord :=
  match r.Predecessor with
  | none => none
  | some p =>
    let c1 := { c with
      successors := successor :: allButLast r.Successors,
      predecessor := some p }
    let c2 := updateRange c1 (Range.mk p.Id c1.self.Id)
    some (fillFingerTable c2 successor)

/-- The successor-list splice performed by logic.go `stabilizeFromSuccessor`
    when `get_ring()` on `successors[0]` succeeds with reply `r` (the
    `err == nil` branch): keep the head, then append the reply, truncating the
    reply to `successorCount - 1` only when the local list is already full. -/
def stabilizeSplice (c : Concord) (r : ring) : Concord :=
  if c.successors.length < c.successorCount then
    { c with successors := head c.successors ++ r.Successors }
  else
    { c with successors := head c.successors ++ truncate r.Successors (c.successorCount - 1) }

/-- The state change performed by logic.go `stabilizeFromSuccessor` when
    `get_ring()` on `successors[0]` fails (the `err != nil` branch): with a
    single remaining successor the node declares itself isolated and resets
    `successors = [self]` and `predecessor = &self` (note: the Go code does
    not call `updateRange` here); otherwise it pops the dead head. -/
def stabilizeFailureStep (c : Concord) : Concord :=
  if c.successors.length = 1 then
    { c with successors := [c.self], predecessor := some c.self }
  else
    { c with successors := tail c.successors }

/-- Index loop of logic.go `closestPreceedingNode`: scan the given index list
    (the Go loop runs `i` from `hashBits - 1` down to `0`), returning the first
    finger whose node is set and lies strictly between `self.Id` and `id`;
    fall back to self. A missing index reads as an unset slot. -/
def cpnAux (c : Concord) (id : Nat) : List Nat → Server
  | [] => c.self
  | i :: rest =>
    match (c.finger.getD i (FingerEntry.mk 0 none)).Node with
    | some nd => if between c.self.Id nd.Id id then nd else cpnAux c id rest
    | none => cpnAux c id rest

/-- logic.go `closestPreceedingNode`. -/
def closestPreceedingNode (c : Concord) (id : Nat) : Server :=
  cpnAux c id (List.range c.hashBits).reverse

/-- The transport environment seen by one `findSuccessor` call: what
    `client(addr)` returns for each address (connection success or a transport
    error) and what the remote `FindSuccessor(id)` RPC on that address
    returns. Errors are modelled as strings. -/
structure Network where
  connect : String → Except String Unit
  findSucc : String → Nat → Except String Server

/-- Truth value of `err == nil` for a Go `(value, error)` pair. -/
def exceptOk {α : Type} : Except String α → Bool
  | Except.ok _ => true
  | Except.error _ => false

/-- The forwarding loop of logic.go `findSuccessor` (lines 239-252): walk the
    contender list; a failed `client()` is skipped without recording an error;
    a successful RPC returns immediately with a nil error; a failed RPC
    records `lastErr` and moves on. Exhaustion returns the zero `Server`
    together with the recorded `lastErr` (possibly nil). -/
def forwardLoop (net : Network) (id : Nat) : List Server → Option String → Server × Option String
  | [], lastErr => (Server.mk "" 0 "", lastErr)
  | contender :: rest, lastErr =>
    match net.connect contender.Address with
    | Except.error _ => forwardLoop net id rest lastErr
    | Except.ok _ =>
      match net.findSucc contender.Address id with
      | Except.ok succ => (succ, none)
      | Except.error e => forwardLoop net id rest (some e)

/-- logic.go `findSuccessor`: local ownership test against `successors[0]`,
    then closest-preceding-node, then forwarding over the contender list
    `n :: successors`. An empty successor list (on which the Go code would
    panic reading `successors[0]`) yields `none`. -/
def findSuccessor (net : Network) (c : Concord) (id : Nat) : Option (Server × Option String) :=
  match c.successors with
  | [] => none
  | s0 :: _ =>
    if between c.self.Id id s0.Id then some (s0, none)
    else
      let n := closestPreceedingNode c id
      if n = c.self then some (c.self, none)
      else some (forwardLoop net id (n :: c.successors) none)

/-- A contender is handled successfully by the forwarding loop exactly when
    its connection is obtained and its `FindSuccessor` RPC succeeds. -/
def contenderOk (net : Network) (id : Nat) (s : Server) : Bool :=
  exceptOk (net.connect s.Address) && exceptOk (net.findSucc s.Address id)

/-- The `lastErr` value accumulated by the forwarding loop over a contender
    list on which no RPC succeeds: connection failures leave it untouched, RPC
    failures overwrite it. -/
def lastRpcErr (net : Network) (id : Nat) : List Server → Option String → Option String
  | [], acc => acc
  | s :: rest, acc =>
    match net.connect s.Address with
    | Except.error _ => lastRpcErr net id rest acc
    | Except.ok _ =>
      match net.findSucc s.Address id with
      | Except.ok _ => lastRpcErr net id rest acc
      | Except.error e => lastRpcErr net id rest (some e)

/-- External effects performed by api.go `Stop`: cancelling the stabilize
    context and stopping the gRPC server. -/
inductive StopEvent where
  | cancel
  | srvStop
deriving DecidableEq, Repr

/-- api.go `Stop`: cancel stabilization if `setup` is set, stop the server if
    `started` is set, and return nil. The result records the returned error,
    the new state, and the external effects performed. -/
def Stop (c : Concord) : Option String × Concord × List StopEvent :=
  let p1 := if c.setup then ({ c with setup := false }, [StopEvent.cancel]) else (c, [])
  let p2 := if p1.1.started then ({ p1.1 with started := false }, p1.2 ++ [StopEvent.srvStop]) else (p1.1, p1.2)
  (none, p2.1, p2.2)

/-- A store of slice backing arrays, used to model Go slice aliasing for
    api.go `Successors`: cells below `next` are allocated; `alloc` models
    `make` of a fresh backing array. -/
structure Heap where
  cells : Nat → List Server
  next : Nat

/-- Read the slice behind reference `r`. -/
def Heap.read (h : Heap) (r : Nat) : List Server :=
  h.cells r

/-- Overwrite the slice behind reference `r` (a mutation through that slice
    reference). -/
def Heap.write (h : Heap) (r : Nat) (v : List Server) : Heap :=
  Heap.mk (fun q => if q = r then v else h.cells q) h.next

/-- Allocate a fresh backing array holding `v`, returning the new heap and the
    fresh reference. -/
def Heap.alloc (h : Heap) (v : List Server) : Heap × Nat :=
  (Heap.mk (fun q => if q = h.next then v else h.cells q) (h.next + 1), h.next)

/-- api.go `Successors`: `make` a fresh slice of the same length, `copy` the
    node's successor list into it, and return it. `succRef` is the reference
    to the node's internal successor slice. -/
def Successors (h : Heap) (succRef : Nat) : Heap × Nat :=
  Heap.alloc h (Heap.read h succRef)

/-- Concrete peers used to evaluate the model on closed inputs. -/
def srvA : Server := Server.mk "a" 0 "addra"

def srvB : Server := Server.mk "b" 5 "addrb"

def srvC : Server := Server.mk "c" 3 "addrc"

def srvD : Server := Server.mk "d" 4 "addrd"

def srvP : Server := Server.mk "p" 9 "addrp"

def srvE : Server := Server.mk "e" 10 "addre"

def srvF : Server := Server.mk "f" 12 "addrf"

def srvG : Server := Server.mk "g" 14 "addrg"

/-- A node view with self id 0, one successor (id 5), one unset finger. -/
def node0 : Concord :=
  Concord.mk srvA (Range.mk 0 0) [srvB] (some srvA) [FingerEntry.mk 1 none] 3 1 false false

/-- Like `node0` but with its finger pointing at peer id 3, so lookups of ids
    past the successor forward through the finger. -/
def node7 : Concord :=
  { node0 with finger := [FingerEntry.mk 1 (some srvC)] }

/-- A node whose single remaining successor (id 4) is dead and whose stored
    arc `(9, 0]` comes from its old predecessor (id 9). -/
def node3 : Concord :=
  { node0 with predecessor := some srvP, interval := Range.mk 9 0, successors := [srvD] }

/-- A node whose successor list is full (three entries, successorCount 3). -/
def node4a : Concord :=
  { node0 with successors := [srvB, srvC, srvD] }

/-- A three-entry ring reply with no predecessor. -/
def r4x : ring := ring.mk [srvE, srvF, srvG] none

/-- A two-entry ring reply whose predecessor is peer id 9. -/
def r5 : ring := ring.mk [srvE, srvF] (some srvP)

/-- A transport on which every connection attempt fails. -/
def netNone : Network :=
  Network.mk (fun _ => Except.error "unreachable") (fun _ _ => Except.error "unreachable")

/-- A transport on which every connection succeeds but every forwarded
    `FindSuccessor` RPC fails. -/
def netRpcFail : Network :=
  Network.mk (fun _ => Except.ok ()) (fun _ _ => Except.error "boom")

/-- A transport on which every connection attempt fails even though the RPC
    itself would have answered. -/
def netConnFail : Network :=
  Network.mk (fun _ => Except.error "conn") (fun _ _ => Except.ok srvB)

/-- A one-cell heap whose allocated slice holds peer id 5. -/
def heap0 : Heap :=
  Heap.mk (fun q => if q = 0 then [srvB] else []) 1

/-- Counterexample to claim C1 as stated: with coinciding endpoints the Go
    predicate answers true for a point distinct from the endpoint, so the arc
    is not empty. -/
theorem between_endpoints_equal_cx : between 0 1 0 = true := by decide

/-- Claim C1 (amended): with equal endpoints, `between a b a` is false exactly
    when `b` equals the endpoint; for every other `b` it is true — the
    degenerate arc behaves as the full ring, not as the empty one. -/
theorem between_endpoints_equal (a b : Nat) : between a b a = decide (¬ b = a) := by
  unfold between
  rw [if_neg (lt_irrefl a)]
  by_cases h : b = a
  · subst h; simp
  · rcases Nat.lt_or_ge a b with hab | hab
    · simp [h, hab]
    · have hba : b < a := lt_of_le_of_ne hab h
      simp [h, hba]

/-- Witness for claim C1: evaluating the amended statement at the concrete
    endpoint pair (0, 0) and point 1. -/
theorem between_endpoints_equal_wit : between 0 1 0 = decide (¬ 1 = 0) :=
  between_endpoints_equal 0 1

/-- Counterexample to claim C2 as stated: on `node0` the looked-up id 5 equals
    `successors[0].Id`, yet `findSuccessor` does not return `successors[0]` —
    the strict `between` test misses the right endpoint and the call falls
    through to the closest-preceding-node path, here answering self. -/
theorem findSuccessor_local_hit_cx :
    node0.successors = [srvB] ∧ (5 : Nat) = srvB.Id ∧
    findSuccessor netNone node0 5 = some (node0.self, none) ∧
    node0.self ≠ srvB := by decide

/-- Claim C2 (amended): the local `find_successor` returns `successors[0]`
    without forwarding whenever `between(self.Id, id, successors[0].Id)`
    holds; the `id == successors[0].Id` case is not covered by the local test. -/
theorem findSuccessor_local_hit (net : Network) (c : Concord) (id : Nat)
    (s0 : Server) (rest : List Server)
    (hs : c.successors = s0 :: rest)
    (hb : between c.self.Id id s0.Id = true) :
    findSuccessor net c id = some (s0, none) := by
  unfold findSuccessor
  rw [hs]
  simp [hb]

/-- Witness for claim C2: on `node0`, id 3 lies strictly between self (0) and
    the successor (5), and the lookup answers the successor locally. -/
theorem findSuccessor_local_hit_wit :
    between node0.self.Id 3 srvB.Id = true ∧
    findSuccessor netNone node0 3 = some (srvB, none) :=
  ⟨by decide, findSuccessor_local_hit netNone node0 3 srvB [] rfl (by decide)⟩

/-- Claim C3 (code bug, evaluated at the failing input): on `node3` — one dead
    successor left, stored arc `(9, 0]` — the isolation reset of
    `stabilizeFromSuccessor` installs `predecessor = self` and
    `successors = [self]` but leaves the stored arc unchanged, so the arc does
    not equal `(predecessor.Id, self.Id] = (0, 0]` as the invariant requires. -/
theorem stabilizeFailure_stale_arc :
    (stabilizeFailureStep node3).predecessor = some node3.self ∧
    (stabilizeFailureStep node3).successors = [node3.self] ∧
    (stabilizeFailureStep node3).interval = Range.mk 9 0 ∧
    (stabilizeFailureStep node3).interval ≠ Range.mk node3.self.Id node3.self.Id := by
  decide

/-- Claim C6: after `create`, the predecessor is self, the successor list is
    `successorCount` copies of self, and the stored arc is
    `(self.Id, self.Id]` — the whole ring. -/
theorem create_spec (c : Concord) :
    (create c).2.predecessor = some c.self ∧
    (create c).2.successors = List.replicate c.successorCount c.self ∧
    (create c).2.successors.length = c.successorCount ∧
    (create c).2.interval = Range.mk c.self.Id c.self.Id := by
  unfold create updateRange fillFingerTable
  simp

/-- Counterexample to claim C8 as stated: `node0` has `started = false`, yet
    `Create` returns a nil error. -/
theorem Create_always_nil_cx : node0.started = false ∧ (Create node0).1 = none := by decide

/-- Claim C8 (amended): `create()` performs no lifecycle check at all — it
    returns a nil error in every state, in particular when `started` is
    false. -/
theorem Create_always_nil (c : Concord) : (Create c).1 = none := rfl

/-- Claim C10: `Stop` returns nil in every lifecycle state, and it is
    idempotent — a second consecutive `Stop` leaves the state unchanged and
    performs no cancellation or server-shutdown effect. -/
theorem Stop_nil_idempotent (c : Concord) :
    (Stop c).1 = none ∧
    (Stop (Stop c).2.1).2.1 = (Stop c).2.1 ∧
    (Stop (Stop c).2.1).2.2 = [] := by
  unfold Stop
  by_cases h1 : c.setup <;> by_cases h2 : c.started <;> simp [h1, h2]

/-- `truncate` never returns more than `ln` elements. -/
theorem truncate_length_le {α : Type} (slice : List α) (ln : Nat) :
    (truncate slice ln).length ≤ ln := by
  unfold truncate
  by_cases h0 : ln = 0
  · simp [h0]
  · rw [if_neg h0]
    by_cases hlt : slice.length < ln
    · rw [if_pos hlt]; exact Nat.le_of_lt hlt
    · rw [if_neg hlt]; simp [List.length_take]

/-- Counterexample to claim C4 as stated: `node0` holds one successor with
    `successorCount = 3`; after a successful `get_ring` with a three-entry
    reply the spliced list has four entries — it both exceeds `r` and differs
    from the claimed `truncate ([successors0] ++ reply.Successors) r`. -/
theorem stabilizeSplice_spec_cx :
    node0.successorCount = 3 ∧
    (stabilizeSplice node0 r4x).successors.length = 4 ∧
    node0.successorCount < (stabilizeSplice node0 r4x).successors.length ∧
    (stabilizeSplice node0 r4x).successors ≠
      truncate (head node0.successors ++ r4x.Successors) node0.successorCount := by
  decide

/-- Claim C4 (amended): on a successful `get_ring`, when the local list
    already holds at least `successorCount` entries the new list is the head
    followed by the reply truncated to `successorCount - 1`, hence at most
    `successorCount` long; when the local list is shorter, the reply is
    appended untruncated and the result may exceed `successorCount`. -/
theorem stabilizeSplice_spec (c : Concord) (r : ring) (s0 : Server) (rest : List Server)
    (hs : c.successors = s0 :: rest) (hr : 1 ≤ c.successorCount) :
    (¬ c.successors.length < c.successorCount →
      (stabilizeSplice c r).successors = s0 :: truncate r.Successors (c.successorCount - 1) ∧
      (stabilizeSplice c r).successors.length ≤ c.successorCount) ∧
    (c.successors.length < c.successorCount →
      (stabilizeSplice c r).successors = s0 :: r.Successors) := by
  have hhead : head c.successors = [s0] := by
    rw [hs]; unfold head; simp
  constructor
  · intro hge
    unfold stabilizeSplice
    rw [if_neg hge, hhead]
    refine ⟨rfl, ?_⟩
    show ([s0] ++ truncate r.Successors (c.successorCount - 1)).length ≤ c.successorCount
    have ht := truncate_length_le r.Successors (c.successorCount - 1)
    simp only [List.length_append, List.length_cons, List.length_nil]
    omega
  · intro hlt
    unfold stabilizeSplice
    rw [if_pos hlt, hhead]
    rfl

/-- Witness for claim C4: `node4a` holds a full list of three successors; the
    splice keeps the head and truncates the three-entry reply to two. -/
theorem stabilizeSplice_spec_wit :
    ¬ node4a.successors.length < node4a.successorCount ∧
    (stabilizeSplice node4a r4x).successors =
      srvB :: truncate r4x.Successors (node4a.successorCount - 1) ∧
    (stabilizeSplice node4a r4x).successors.length ≤ node4a.successorCount :=
  ⟨by decide,
   (stabilizeSplice_spec node4a r4x srvB [srvC, srvD] rfl (by decide)).1 (by decide)⟩

/-- When the table is no longer than `m`, the fill loop sets every entry's
    node. -/
theorem fillFingersAux_full (n : Server) :
    ∀ (fs : List FingerEntry) (m : Nat), fs.length ≤ m →
      fillFingersAux m n fs = fs.map (fun f => FingerEntry.mk f.Start (some n)) := by
  intro fs
  induction fs with
  | nil => intro m _; unfold fillFingersAux; simp
  | cons f rest ih =>
    intro m hm
    match m with
    | 0 => simp at hm
    | k + 1 =>
      unfold fillFingersAux
      simp only [List.map_cons]
      rw [ih k (by simpa using hm)]

/-- Claim C5: when join succeeds against a successor whose ring reply carries
    a predecessor, the installed view is: successors = the successor followed
    by the reply's successors without their last entry, predecessor = the
    reply's predecessor, arc = `(predecessor.Id, self.Id]`, and every finger
    entry pointing at the successor. -/
theorem joinInstall_spec (c : Concord) (successor : Server) (r : ring) (p : Server)
    (hp : r.Predecessor = some p) (hf : c.finger.length = c.hashBits) :
    (joinInstall c successor r).map (fun x => x.successors) =
      some (successor :: allButLast r.Successors) ∧
    (joinInstall c successor r).map (fun x => x.predecessor) = some (some p) ∧
    (joinInstall c successor r).map (fun x => x.interval) =
      some (Range.mk p.Id c.self.Id) ∧
    (joinInstall c successor r).map (fun x => x.finger) =
      some (c.finger.map (fun f => FingerEntry.mk f.Start (some successor))) := by
  unfold joinInstall updateRange fillFingerTable
  rw [hp]
  have hfill := fillFingersAux_full successor c.finger c.hashBits (le_of_eq hf)
  simp [hfill]

/-- Witness for claim C5: installing the two-entry reply `r5` (predecessor id
    9) on `node0` with successor id 5. -/
theorem joinInstall_spec_wit :
    r5.Predecessor = some srvP ∧
    ((joinInstall node0 srvB r5).map (fun x => x.successors) =
      some (srvB :: allButLast r5.Successors) ∧
    (joinInstall node0 srvB r5).map (fun x => x.predecessor) = some (some srvP) ∧
    (joinInstall node0 srvB r5).map (fun x => x.interval) =
      some (Range.mk srvP.Id node0.self.Id) ∧
    (joinInstall node0 srvB r5).map (fun x => x.finger) =
      some (node0.finger.map (fun f => FingerEntry.mk f.Start (some srvB)))) :=
  ⟨rfl, joinInstall_spec node0 srvB r5 srvP rfl rfl⟩

/-- A contender that connects and whose RPC succeeds makes the forwarding
    loop return its answer with a nil error, whatever error was recorded. -/
theorem forwardLoop_head_ok (net : Network) (id : Nat) (w v : Server)
    (t : List Server) (lastErr : Option String)
    (hc : exceptOk (net.connect w.Address) = true)
    (hf : net.findSucc w.Address id = Except.ok v) :
    forwardLoop net id (w :: t) lastErr = (v, none) := by
  unfold forwardLoop
  cases h : net.connect w.Address with
  | error e => rw [h] at hc; simp [exceptOk] at hc
  | ok u => rw [hf]

/-- Unfolding equation of the forwarding loop on a nonempty contender list. -/
theorem forwardLoop_cons (net : Network) (id : Nat) (contender : Server)
    (rest : List Server) (lastErr : Option String) :
    forwardLoop net id (contender :: rest) lastErr =
      match net.connect contender.Address with
      | Except.error _ => forwardLoop net id rest lastErr
      | Except.ok _ =>
        match net.findSucc contender.Address id with
        | Except.ok succ => (succ, none)
        | Except.error e => forwardLoop net id rest (some e) := rfl

/-- Unfolding equation of the error accumulator on a nonempty contender
    list. -/
theorem lastRpcErr_cons (net : Network) (id : Nat) (s : Server)
    (rest : List Server) (acc : Option String) :
    lastRpcErr net id (s :: rest) acc =
      match net.connect s.Address with
      | Except.error _ => lastRpcErr net id rest acc
      | Except.ok _ =>
        match net.findSucc s.Address id with
        | Except.ok _ => lastRpcErr net id rest acc
        | Except.error e => lastRpcErr net id rest (some e) := rfl

/-- Skipping a block of failing contenders only changes the recorded error. -/
theorem forwardLoop_fail_prefix (net : Network) (id : Nat) :
    ∀ (l1 t : List Server) (lastErr : Option String),
      (∀ s ∈ l1, contenderOk net id s = false) →
      ∃ lastErr2, forwardLoop net id (l1 ++ t) lastErr = forwardLoop net id t lastErr2 := by
  intro l1
  induction l1 with
  | nil => intro t lastErr _; exact ⟨lastErr, rfl⟩
  | cons s l1 ih =>
    intro t lastErr hfail
    have hs := hfail s (List.mem_cons_self s l1)
    have hrest : ∀ x ∈ l1, contenderOk net id x = false :=
      fun x hx => hfail x (List.mem_cons_of_mem s hx)
    rw [List.cons_append]
    cases hc : net.connect s.Address with
    | error e =>
      simp only [forwardLoop_cons, hc]
      exact ih t lastErr hrest
    | ok u =>
      cases hr : net.findSucc s.Address id with
      | ok v =>
        rw [contenderOk, hc, hr] at hs
        simp [exceptOk] at hs
      | error e =>
        simp only [forwardLoop_cons, hc, hr]
        exact ih t (some e) hrest

/-- When every contender fails, the loop returns the zero server together with
    the error accumulated exactly as `lastRpcErr` describes. -/
theorem forwardLoop_all_fail (net : Network) (id : Nat) :
    ∀ (l : List Server) (acc : Option String),
      (∀ s ∈ l, contenderOk net id s = false) →
      forwardLoop net id l acc = (Server.mk "" 0 "", lastRpcErr net id l acc) := by
  intro l
  induction l with
  | nil => intro acc _; rfl
  | cons s l ih =>
    intro acc hfail
    have hs := hfail s (List.mem_cons_self s l)
    have hrest : ∀ x ∈ l, contenderOk net id x = false :=
      fun x hx => hfail x (List.mem_cons_of_mem s hx)
    cases hc : net.connect s.Address with
    | error e =>
      simp only [forwardLoop_cons, lastRpcErr_cons, hc]
      exact ih acc hrest
    | ok u =>
      cases hr : net.findSucc s.Address id with
      | ok v =>
        rw [contenderOk, hc, hr] at hs
        simp [exceptOk] at hs
      | error e =>
        simp only [forwardLoop_cons, lastRpcErr_cons, hc, hr]
        exact ih (some e) hrest

/-- A forwarded lookup evaluates to the forwarding loop over the contender
    list: the finger-chosen candidate followed by the full successor list. -/
theorem findSuccessor_forward_eq (net : Network) (c : Concord) (id : Nat)
    (s0 : Server) (rest : List Server)
    (hs : c.successors = s0 :: rest)
    (hb : between c.self.Id id s0.Id = false)
    (hn : closestPreceedingNode c id ≠ c.self) :
    findSuccessor net c id =
      some (forwardLoop net id (closestPreceedingNode c id :: c.successors) none) := by
  unfold findSuccessor
  rw [hs]
  simp only [hb, Bool.false_eq_true, if_false]
  rw [if_neg hn]

/-- Claim C7 (amended): a forwarded `find_successor` walks the ordered
    contender list (finger-chosen candidate, then the full successor list);
    the first contender that connects and answers provides the result with a
    nil error; when every contender fails, the call returns the zero server
    with the last RPC-level error — contenders that failed at the connection
    step are skipped without recording an error, so that error can be nil. -/
theorem findSuccessor_forwarding_contract (net : Network) (c : Concord) (id : Nat)
    (s0 : Server) (rest : List Server)
    (hs : c.successors = s0 :: rest)
    (hb : between c.self.Id id s0.Id = false)
    (hn : closestPreceedingNode c id ≠ c.self) :
    (∀ (l1 : List Server) (w : Server) (l2 : List Server) (v : Server),
      closestPreceedingNode c id :: c.successors = l1 ++ w :: l2 →
      (∀ s ∈ l1, contenderOk net id s = false) →
      exceptOk (net.connect w.Address) = true →
      net.findSucc w.Address id = Except.ok v →
      findSuccessor net c id = some (v, none)) ∧
    ((∀ s ∈ closestPreceedingNode c id :: c.successors, contenderOk net id s = false) →
      findSuccessor net c id =
        some (Server.mk "" 0 "",
          lastRpcErr net id (closestPreceedingNode c id :: c.successors) none)) := by
  have heq := findSuccessor_forward_eq net c id s0 rest hs hb hn
  constructor
  · intro l1 w l2 v hdecomp hfail hcw hfw
    rw [heq, hdecomp]
    obtain ⟨le2, h2⟩ := forwardLoop_fail_prefix net id l1 (w :: l2) none hfail
    rw [h2, forwardLoop_head_ok net id w v l2 le2 hcw hfw]
  · intro hall
    rw [heq, forwardLoop_all_fail net id (closestPreceedingNode c id :: c.successors) none hall]

/-- Witness for claim C7: on `node7` the lookup of id 6 must forward; on the
    transport where every RPC fails, the call reports the accumulated last RPC
    error. -/
theorem findSuccessor_forwarding_contract_wit :
    between node7.self.Id 6 srvB.Id = false ∧
    findSuccessor netRpcFail node7 6 =
      some (Server.mk "" 0 "",
        lastRpcErr netRpcFail 6 (closestPreceedingNode node7 6 :: node7.successors) none) :=
  ⟨by decide,
   (findSuccessor_forwarding_contract netRpcFail node7 6 srvB [] rfl (by decide)
      (by decide)).2 (by decide)⟩

/-- Counterexample to claim C7 as stated: on the transport where every
    connection attempt fails, every contender of the forwarded lookup fails,
    yet the call returns a nil error (with the zero server) instead of the
    promised non-nil transport error. -/
theorem findSuccessor_forwarding_contract_cx :
    (∀ s ∈ closestPreceedingNode node7 6 :: node7.successors,
      contenderOk netConnFail 6 s = false) ∧
    findSuccessor netConnFail node7 6 = some (Server.mk "" 0 "", none) := by
  decide

/-- Claim C9: `Successors` hands back a fresh reference holding a copy of the
    node's successor list; writing anything through that reference leaves the
    slice behind every other reference — in particular the node's internal
    one — exactly as it was. -/
theorem Successors_fresh_copy (h : Heap) (ref : Nat) (href : ref < h.next) :
    Heap.read (Successors h ref).1 (Successors h ref).2 = Heap.read h ref ∧
    (Successors h ref).2 ≠ ref ∧
    ∀ (v : List Server) (q : Nat), q ≠ (Successors h ref).2 →
      Heap.read (Heap.write (Successors h ref).1 (Successors h ref).2 v) q = Heap.read h q := by
  refine ⟨?_, ?_, ?_⟩
  · show (fun q => if q = h.next then Heap.read h ref else h.cells q) h.next = Heap.read h ref
    simp
  · show h.next ≠ ref
    omega
  · intro v q hq
    have hq2 : q ≠ h.next := hq
    show (if q = h.next then v
        else if q = h.next then Heap.read h ref else h.cells q) = h.cells q
    rw [if_neg hq2, if_neg hq2]

/-- Witness for claim C9: the one-cell heap `heap0` with its internal slice at
    reference 0; reading back the copy, freshness of the returned reference,
    and a concrete overwrite through it that leaves the internal slice
    unchanged. -/
theorem Successors_fresh_copy_wit :
    Heap.read (Successors heap0 0).1 (Successors heap0 0).2 = Heap.read heap0 0 ∧
    (Successors heap0 0).2 ≠ 0 ∧
    Heap.read (Heap.write (Successors heap0 0).1 (Successors heap0 0).2 [srvC]) 0 =
      Heap.read heap0 0 :=
  ⟨(Successors_fresh_copy heap0 0 (by decide)).1,
   (Successors_fresh_copy heap0 0 (by decide)).2.1,
   (Successors_fresh_copy heap0 0 (by decide)).2.2 [srvC] 0 (by decide)⟩

end ConcordModel
